import Mathlib

/-!
Verification of the gitrate frontend's local profile store, query/ranking
logic, and API error handling, as a shallow embedding in Lean.

Embedding conventions:
* JS numbers that only ever hold scores or timestamps are modelled as `Int`.
* JS optional chaining (`profile?.username`) is modelled with `Option`; a
  missing or falsy (empty) field is `none`.
* `localStorage` is modelled as a `LocalStore` state holding the raw value
  under the single storage key, plus two fault flags saying whether the
  underlying `getItem` / `setItem` calls throw.  `try/catch` blocks in the
  source become the corresponding case splits on these flags.
* `Array.prototype.sort` (stable since ES2019) with comparator `cmp` is
  modelled as `List.insertionSort (fun a b => cmp a b ≤ 0)`: for a
  consistent comparator the stable-sorted permutation is unique, and
  Mathlib's `insertionSort` is stable, so the two agree.
* Thrown exceptions of the API layer become `Except` error values.
-/

/-- The nested `profile` object of a rating result, restricted to the fields
the storage and comparison code inspects (`profile?.username`,
`profile?.name`). -/
structure ProfileInfo where
  username : Option String
  name : Option String
deriving Repr, DecidableEq

/-- A rating result as stored and compared by the frontend, restricted to the
fields the storage/query/ranking code inspects: the nested `profile` object,
`tier`, `final_score`, and the `savedAt` stamp added by the store.  The JS
spread `{...profileData, savedAt}` preserves all other fields unchanged, so
omitting them loses nothing the verified code looks at. -/
structure RatingResult where
  profile : Option ProfileInfo
  tier : String
  final_score : Int
  savedAt : Option Int
deriving Repr, DecidableEq

/-- `p.profile?.username` : the optional-chained username of a record. -/
def storedUsername (r : RatingResult) : Option String :=
  r.profile.bind (fun p => p.username)

/-- `profileData.profile?.username || 'unknown'` : the key `saveProfile`
computes for its duplicate lookup. -/
def saveKey (r : RatingResult) : String :=
  (storedUsername r).getD "unknown"

/-- The raw value stored under the `gitrate_saved_profiles` key:
absent (`getItem` returns null), corrupt (`JSON.parse` throws), or a valid
serialized list of profiles. -/
inductive RawValue
  | absent
  | corrupt
  | valid (profiles : List RatingResult)
deriving Repr, DecidableEq

/-- The browser `localStorage` as seen through the single storage key, with
fault flags: `readFails` models `getItem` throwing (storage unavailable) and
`writeFails` models `setItem` / `removeItem` throwing (quota exceeded etc.). -/
structure LocalStore where
  raw : RawValue
  readFails : Bool
  writeFails : Bool
deriving Repr, DecidableEq

namespace storage

/-- `storage.getSavedProfiles` : read and parse the stored list; any failure
(read throws, missing key, unparseable value) is caught and degrades to `[]`. -/
def getSavedProfiles (s : LocalStore) : List RatingResult :=
  if s.readFails then []
  else
    match s.raw with
    | .absent => []
    | .corrupt => []
    | .valid profiles => profiles

/-- The in-memory list transformation performed by `storage.saveProfile`
(lines 20-38 of the source): find an existing entry whose
`profile?.username` strictly equals the computed key; replace it in place if
found, otherwise unshift the stamped record and pop the last entry when the
length exceeds 10. -/
def saveList (profiles : List RatingResult) (profileData : RatingResult)
    (now : Int) : List RatingResult :=
  let username := saveKey profileData
  let savedProfile := { profileData with savedAt := some now }
  match profiles.findIdx? (fun p => storedUsername p == some username) with
  | some existingIndex => profiles.set existingIndex savedProfile
  | none =>
    let profiles' := savedProfile :: profiles
    if profiles'.length > 10 then profiles'.dropLast else profiles'

/-- `storage.saveProfile` : compute the updated list and persist it; a write
failure is caught, returns `false`, and leaves the stored value unchanged. -/
def saveProfile (s : LocalStore) (profileData : RatingResult) (now : Int) :
    Bool × LocalStore :=
  let profiles := getSavedProfiles s
  let newProfiles := saveList profiles profileData now
  if s.writeFails then (false, s)
  else (true, { s with raw := .valid newProfiles })

/-- `storage.removeProfile` : keep the entries whose `profile?.username` is
not strictly equal to the given username and persist; a write failure is
caught and returns `false`. -/
def removeProfile (s : LocalStore) (username : String) : Bool × LocalStore :=
  let filtered :=
    (getSavedProfiles s).filter (fun p => !(storedUsername p == some username))
  if s.writeFails then (false, s)
  else (true, { s with raw := .valid filtered })

/-- `storage.isProfileSaved` : membership test by strict username equality. -/
def isProfileSaved (s : LocalStore) (username : String) : Bool :=
  (getSavedProfiles s).any (fun p => storedUsername p == some username)

/-- `storage.clearAll` : remove the storage key; a failure is caught and
returns `false`. -/
def clearAll (s : LocalStore) : Bool × LocalStore :=
  if s.writeFails then (false, s)
  else (true, { s with raw := .absent })

/-- A sequence of `saveProfile` calls, each with the record to save and the
current time at that call, threaded through the store state. -/
def runSaves (s : LocalStore) : List (RatingResult × Int) → LocalStore
  | [] => s
  | (r, t) :: rest => runSaves (saveProfile s r t).2 rest

/-- The list-level counterpart of `runSaves`. -/
def runSavesList (profiles : List RatingResult) :
    List (RatingResult × Int) → List RatingResult
  | [] => profiles
  | (r, t) :: rest => runSavesList (saveList profiles r t) rest

end storage

/-- The tier filter of `SavedProfiles` (lines 97-99): `'all'` passes the list
through, any other value keeps the entries whose `tier` strictly equals it. -/
def filterByTier (profiles : List RatingResult) (tier : String) :
    List RatingResult :=
  if tier == "all" then profiles
  else profiles.filter (fun p => p.tier == tier)

/-- The name key of the `SavedProfiles` sort:
`(profile?.name || profile?.username || '').toLowerCase()`. -/
def nameKey (r : RatingResult) : String :=
  (((r.profile.bind (fun p => p.name)).orElse
    (fun _ => storedUsername r)).getD "").toLower

/-- `localeCompare` modelled as lexicographic string comparison, returned as
the sign convention of a JS comparator. -/
def compareAsInt (o : Ordering) : Int :=
  match o with
  | .lt => -1
  | .eq => 0
  | .gt => 1

/-- The `switch (sortBy)` comparator body of `SavedProfiles` (lines 103-117):
`'score'` compares `final_score` by subtraction, `'name'` compares lowercased
display names, and `'date'` (the default branch) compares `savedAt`
timestamps with a missing stamp treated as epoch. -/
def sortComparison (sortBy : String) (a b : RatingResult) : Int :=
  if sortBy == "score" then a.final_score - b.final_score
  else if sortBy == "name" then compareAsInt (compare (nameKey a) (nameKey b))
  else (a.savedAt.getD 0) - (b.savedAt.getD 0)

/-- The full comparator passed to `.sort` (line 118): `'desc'` negates the
ascending comparison. -/
def sortCmp (sortBy sortOrder : String) (a b : RatingResult) : Int :=
  let comparison := sortComparison sortBy a b
  if sortOrder == "desc" then -comparison else comparison

instance (cmp : RatingResult → RatingResult → Int) :
    DecidableRel (fun a b => cmp a b ≤ 0) :=
  fun _ _ => Int.decLe _ _

/-- The sort of `SavedProfiles` (line 102): a stable sort of a copy of the
list under the chosen comparator. -/
def sortProfiles (profiles : List RatingResult) (sortBy sortOrder : String) :
    List RatingResult :=
  List.insertionSort (fun a b => sortCmp sortBy sortOrder a b ≤ 0) profiles

/-- The ranking comparator of `CompareView` (line 44):
`(a, b) => b.final_score - a.final_score`. -/
def rankCmp (a b : RatingResult) : Int :=
  b.final_score - a.final_score

/-- The leaderboard ordering computed by `CompareView` (line 44): a stable
sort of a copy of the profiles, descending by `final_score`. -/
def rank (profiles : List RatingResult) : List RatingResult :=
  List.insertionSort (fun a b => rankCmp a b ≤ 0) profiles

/-- The refusal state of the comparison view: fewer than 2 profiles. -/
inductive ComparisonError
  | needAtLeastTwo
deriving Repr, DecidableEq

/-- The data behaviour of the `CompareView` component (lines 32-44): with a
missing list or fewer than 2 profiles it renders the "Need at least 2
profiles to compare" refusal instead of a leaderboard; otherwise it computes
the ranking.  The refusal branch is the `.error` case, the rendered
leaderboard the `.ok` case. -/
def CompareView (profiles : Option (List RatingResult)) :
    Except ComparisonError (List RatingResult) :=
  match profiles with
  | none => .error .needAtLeastTwo
  | some ps =>
    if ps.length < 2 then .error .needAtLeastTwo
    else .ok (rank ps)

/-- A completed HTTP response as `fetch` resolves it: a status code and a
body. -/
structure FetchResponse where
  status : Nat
  body : String
deriving Repr, DecidableEq

/-- `Response.ok` : whether the status is in the 2xx range. -/
def FetchResponse.ok (r : FetchResponse) : Bool :=
  decide (200 ≤ r.status ∧ r.status ≤ 299)

/-- An exception escaping the API layer: either the rejection of `fetch`
itself (network failure), propagated unchanged, or an `Error` thrown by the
API code, carrying only its message string. -/
inductive JsError
  | fetchFailed (msg : String)
  | thrown (msg : String)
deriving Repr, DecidableEq

/-- `api.rateDeveloper` (lines 4-15): the argument is the outcome of the
`fetch` call (`.error` when the request could not be completed, `.ok` with
the response otherwise).  A fetch rejection propagates; a non-2xx response
makes the code throw `new Error('Failed to rate developer')`; otherwise the
body is returned. -/
def rateDeveloper (fetchResult : Except String FetchResponse) :
    Except JsError String :=
  match fetchResult with
  | .error e => .error (.fetchFailed e)
  | .ok response =>
    if !response.ok then .error (.thrown "Failed to rate developer")
    else .ok response.body

/-! ### Sample data used by the concrete witnesses -/

/-- A sample Elite result for user alice, score 90. -/
def alice90 : RatingResult :=
  { profile := some { username := some "alice", name := some "Alice" },
    tier := "Elite", final_score := 90, savedAt := none }

/-- A sample Advanced result for user bob, score 60. -/
def bob60 : RatingResult :=
  { profile := some { username := some "bob", name := none },
    tier := "Advanced", final_score := 60, savedAt := none }

/-- A sample Advanced result for user carol, score 75. -/
def carol75 : RatingResult :=
  { profile := some { username := some "carol", name := none },
    tier := "Advanced", final_score := 75, savedAt := none }

/-- A record whose nested profile has no username. -/
def noUser1 : RatingResult :=
  { profile := some { username := none, name := some "A" },
    tier := "Beginner", final_score := 10, savedAt := none }

/-- A second, different record whose nested profile has no username. -/
def noUser2 : RatingResult :=
  { profile := some { username := none, name := some "B" },
    tier := "Beginner", final_score := 20, savedAt := none }

/-- A store whose key is missing and whose underlying storage works. -/
def emptyStore : LocalStore :=
  { raw := .absent, readFails := false, writeFails := false }

/-- A store holding an unparseable value. -/
def corruptStore : LocalStore :=
  { raw := .corrupt, readFails := false, writeFails := false }

/-- A store whose underlying reads and writes both throw. -/
def brokenStore : LocalStore :=
  { raw := .absent, readFails := true, writeFails := true }

/-! ### C3 -/

/-- C3: for every input of fewer than 2 results (including a missing list),
the comparison operation refuses with the `ComparisonError` state rather
than computing a ranking. -/
theorem CompareView_guard_spec (profiles : List RatingResult)
    (h : profiles.length < 2) :
    CompareView (some profiles) = .error .needAtLeastTwo ∧
    CompareView none = .error .needAtLeastTwo := by
  constructor
  · simp [CompareView, h]
  · rfl

/-- Witness for C3 at the one-element input. -/
theorem CompareView_guard_witness :
    CompareView (some [alice90]) = .error .needAtLeastTwo ∧
    CompareView none = .error .needAtLeastTwo :=
  CompareView_guard_spec [alice90] (by decide)

/-! ### C5 -/

/-- C5: storage failures never escape: a throwing read or a corrupt stored
value makes `getSavedProfiles` return the empty list, and a throwing write
makes `saveProfile`, `removeProfile` and `clearAll` return `false` and leave
the store unchanged. -/
theorem storage.failure_semantics_spec (s : LocalStore) (r : RatingResult)
    (u : String) (t : Int) :
    (s.readFails = true → storage.getSavedProfiles s = []) ∧
    (s.raw = .corrupt → storage.getSavedProfiles s = []) ∧
    (s.writeFails = true →
      (storage.saveProfile s r t).1 = false ∧
      (storage.saveProfile s r t).2 = s ∧
      (storage.removeProfile s u).1 = false ∧
      (storage.removeProfile s u).2 = s ∧
      (storage.clearAll s).1 = false ∧
      (storage.clearAll s).2 = s) := by
  refine ⟨fun h => ?_, fun h => ?_, fun h => ?_⟩
  · simp [storage.getSavedProfiles, h]
  · cases hrf : s.readFails <;> simp [storage.getSavedProfiles, h, hrf]
  · simp [storage.saveProfile, storage.removeProfile, storage.clearAll, h]

/-- Witness for C5 at a corrupt store and a store whose reads and writes
throw. -/
theorem storage.failure_semantics_witness :
    storage.getSavedProfiles brokenStore = [] ∧
    storage.getSavedProfiles corruptStore = [] ∧
    (storage.saveProfile brokenStore alice90 5).1 = false ∧
    (storage.removeProfile brokenStore "alice").1 = false ∧
    (storage.clearAll brokenStore).1 = false := by
  have hb := storage.failure_semantics_spec brokenStore alice90 "alice" 5
  have hc := storage.failure_semantics_spec corruptStore alice90 "alice" 5
  have hbw := hb.2.2 (by decide)
  exact ⟨hb.1 (by decide), hc.2.1 (by decide), hbw.1, hbw.2.2.1, hbw.2.2.2.2.1⟩

/-! ### C6 -/

/-- C6: `filterByTier` with `'all'` returns the input unchanged, and with a
specific tier returns exactly the elements of that tier, in input order
(order preservation stated as being a sublist of the input). -/
theorem filterByTier_spec (profiles : List RatingResult) (tier : String) :
    filterByTier profiles "all" = profiles ∧
    (tier ≠ "all" →
      List.Sublist (filterByTier profiles tier) profiles ∧
      ∀ p, p ∈ filterByTier profiles tier ↔ p ∈ profiles ∧ p.tier = tier) := by
  refine ⟨by simp [filterByTier], fun ht => ?_⟩
  have htb : (tier == "all") = false := by simp [ht]
  constructor
  · simp [filterByTier, htb]
  · intro p
    simp [filterByTier, htb, List.mem_filter]

/-- Witness for C6 at a two-element input and tier Elite. -/
theorem filterByTier_witness :
    filterByTier [alice90, bob60] "all" = [alice90, bob60] ∧
    List.Sublist (filterByTier [alice90, bob60] "Elite") [alice90, bob60] ∧
    (alice90 ∈ filterByTier [alice90, bob60] "Elite" ↔
      alice90 ∈ [alice90, bob60] ∧ alice90.tier = "Elite") := by
  have h := filterByTier_spec [alice90, bob60] "Elite"
  have h2 := h.2 (by decide)
  exact ⟨h.1, h2.1, h2.2 alice90⟩

/-! ### C4 -/

/-- C4 counterexample: the failure `rateDeveloper` produces for a non-2xx
response is one and the same value for statuses 404 and 500, so no reading
of the failure can recover the response status: the error does not carry
the status, contrary to the claim. -/
theorem rateDeveloper_status_not_carried :
    ¬ ∃ statusOf : Except JsError String → Nat,
      statusOf (rateDeveloper (.ok { status := 404, body := "x" })) = 404 ∧
      statusOf (rateDeveloper (.ok { status := 500, body := "x" })) = 500 := by
  rintro ⟨f, h404, h500⟩
  have heq : rateDeveloper (.ok { status := 404, body := "x" }) =
      rateDeveloper (.ok { status := 500, body := "x" }) := rfl
  rw [heq, h500] at h404
  exact absurd h404 (by decide)

/-- C4 (amended): a non-2xx response makes `rateDeveloper` fail with the
thrown `Error` carrying only the fixed message `'Failed to rate developer'`
(not the status), a request that cannot be completed fails with the
propagated fetch rejection, and the two failure kinds are distinguishable
values. -/
theorem rateDeveloper_error_taxonomy_spec (response : FetchResponse)
    (msg : String) (h : response.ok = false) :
    rateDeveloper (.ok response) = .error (.thrown "Failed to rate developer") ∧
    rateDeveloper (.error msg) = .error (.fetchFailed msg) ∧
    JsError.thrown "Failed to rate developer" ≠ JsError.fetchFailed msg :=
  ⟨by simp [rateDeveloper, h], rfl, by simp⟩

/-- Witness for C4 (amended) at a 404 response and a fetch rejection. -/
theorem rateDeveloper_error_taxonomy_witness :
    rateDeveloper (.ok { status := 404, body := "x" }) =
      .error (.thrown "Failed to rate developer") ∧
    rateDeveloper (.error "connection refused") =
      .error (.fetchFailed "connection refused") ∧
    JsError.thrown "Failed to rate developer" ≠
      JsError.fetchFailed "connection refused" :=
  rateDeveloper_error_taxonomy_spec { status := 404, body := "x" }
    "connection refused" (by decide)

/-! ### C10 -/

/-- C10 counterexample: two records with missing `profile.username` do not
dedupe into a single entry: saving both into an empty store leaves two
stored entries, because the duplicate lookup compares each stored record's
(missing) username against the string `'unknown'` and never matches. -/
theorem missing_username_no_dedupe :
    (storage.getSavedProfiles
      (storage.saveProfile
        (storage.saveProfile emptyStore noUser1 1).2 noUser2 2).2).length = 2 := by
  decide

/-- C10 (amended): a record with a missing `profile.username` gets the
fallback lookup key `'unknown'`, but is stored with its original missing
username; the duplicate lookup matches only a stored entry whose username is
literally the string `'unknown'`, so when no such entry exists the save
inserts a new entry instead of replacing one, and repeated saves of
username-less records accumulate as separate entries. -/
theorem missing_username_spec (l : List RatingResult) (r : RatingResult)
    (t : Int) (hr : storedUsername r = none)
    (hl : ∀ p ∈ l, storedUsername p ≠ some "unknown")
    (hlen : l.length < 10) :
    saveKey r = "unknown" ∧
    storage.saveList l r t = { r with savedAt := some t } :: l ∧
    (storage.saveList l r t).length = l.length + 1 := by
  have hkey : saveKey r = "unknown" := by simp [saveKey, hr]
  have hnone : l.findIdx? (fun p => storedUsername p == some (saveKey r)) = none := by
    rw [List.findIdx?_eq_none_iff]
    intro p hp
    rw [hkey]
    simpa using hl p hp
  have heq : storage.saveList l r t = { r with savedAt := some t } :: l := by
    rw [storage.saveList]
    simp only [hnone, List.length_cons]
    rw [if_neg (by omega)]
  exact ⟨hkey, heq, by rw [heq]; simp⟩

/-- Witness for C10 (amended): saving a username-less record on a one-entry
store inserts rather than replaces. -/
theorem missing_username_spec_witness :
    saveKey noUser1 = "unknown" ∧
    storage.saveList [alice90] noUser1 7 =
      [{ noUser1 with savedAt := some 7 }, alice90] ∧
    (storage.saveList [alice90] noUser1 7).length = 2 := by
  have h := missing_username_spec [alice90] noUser1 7 (by decide)
    (by decide) (by decide)
  exact ⟨h.1, h.2.1, h.2.2⟩

/-! ### Helper lemmas about the store -/

/-- Stamping `savedAt` does not change the username the store keys on. -/
theorem storedUsername_stamp (r : RatingResult) (t : Int) :
    storedUsername { r with savedAt := some t } = storedUsername r := rfl

/-- With working storage, a save persists exactly the list `saveList`
computes. -/
theorem storage.getSavedProfiles_saveProfile (s : LocalStore)
    (r : RatingResult) (t : Int) (hr : s.readFails = false)
    (hw : s.writeFails = false) :
    storage.getSavedProfiles (storage.saveProfile s r t).2 =
      storage.saveList (storage.getSavedProfiles s) r t := by
  simp [storage.saveProfile, hw, storage.getSavedProfiles, hr]

/-- With working storage, a removal persists exactly the filtered list. -/
theorem storage.getSavedProfiles_removeProfile (s : LocalStore) (u : String)
    (hr : s.readFails = false) (hw : s.writeFails = false) :
    storage.getSavedProfiles (storage.removeProfile s u).2 =
      (storage.getSavedProfiles s).filter
        (fun p => !(storedUsername p == some u)) := by
  simp [storage.removeProfile, hw, storage.getSavedProfiles, hr]

/-- The freshly stamped record is always a member of the saved list: it
either overwrote the matching slot or was unshifted at the front (and the
pop only ever removes the last entry of a list of at least 11). -/
theorem stamp_mem_saveList (l : List RatingResult) (r : RatingResult)
    (t : Int) :
    { r with savedAt := some t } ∈ storage.saveList l r t := by
  rw [storage.saveList]
  cases hfind : l.findIdx? (fun p => storedUsername p == some (saveKey r)) with
  | none =>
    simp only
    split
    next h =>
      have hne : l ≠ [] := by
        intro he
        subst he
        simp at h
      rw [List.dropLast_cons_of_ne_nil hne]
      exact List.mem_cons_self _ _
    next h => exact List.mem_cons_self _ _
  | some i =>
    obtain ⟨hi, _, _⟩ := List.findIdx?_eq_some_iff_getElem.mp hfind
    exact List.mem_set l i hi _

/-! ### C9 -/

/-- C9: with working storage, `isProfileSaved u` is true immediately after a
successful save of a record whose username is `u`, and false immediately
after `removeProfile u`; `removeProfile` returns true, and is a no-op on the
stored list when no entry has username `u`. -/
theorem storage.isSaved_save_remove_spec (s : LocalStore) (r : RatingResult)
    (u : String) (t : Int) (hr : s.readFails = false)
    (hw : s.writeFails = false) :
    (storedUsername r = some u →
      storage.isProfileSaved (storage.saveProfile s r t).2 u = true) ∧
    storage.isProfileSaved (storage.removeProfile s u).2 u = false ∧
    (storage.removeProfile s u).1 = true ∧
    ((∀ p ∈ storage.getSavedProfiles s, storedUsername p ≠ some u) →
      storage.getSavedProfiles (storage.removeProfile s u).2 =
        storage.getSavedProfiles s) := by
  refine ⟨fun hu => ?_, ?_, ?_, fun hnone => ?_⟩
  · rw [storage.isProfileSaved, storage.getSavedProfiles_saveProfile s r t hr hw]
    rw [List.any_eq_true]
    refine ⟨{ r with savedAt := some t },
      stamp_mem_saveList (storage.getSavedProfiles s) r t, ?_⟩
    simp [storedUsername_stamp, hu]
  · rw [storage.isProfileSaved, storage.getSavedProfiles_removeProfile s u hr hw]
    rw [List.any_eq_false]
    intro p hp
    have h2 := (List.mem_filter.mp hp).2
    simp at h2 ⊢
    exact h2
  · simp [storage.removeProfile, hw]
  · rw [storage.getSavedProfiles_removeProfile s u hr hw]
    rw [List.filter_eq_self]
    intro p hp
    simp [hnone p hp]

/-- A working store already holding alice's saved record. -/
def aliceStore : LocalStore :=
  { raw := .valid [{ alice90 with savedAt := some 1 }],
    readFails := false, writeFails := false }

/-- Witness for C9: saving alice into an empty store makes her saved,
removing her from a store makes her unsaved, and removing an absent bob
returns true and leaves the list unchanged. -/
theorem storage.isSaved_save_remove_witness :
    storage.isProfileSaved (storage.saveProfile emptyStore alice90 3).2
      "alice" = true ∧
    storage.isProfileSaved (storage.removeProfile aliceStore "alice").2
      "alice" = false ∧
    (storage.removeProfile aliceStore "alice").1 = true ∧
    storage.getSavedProfiles (storage.removeProfile aliceStore "bob").2 =
      storage.getSavedProfiles aliceStore := by
  have h1 := storage.isSaved_save_remove_spec emptyStore alice90 "alice" 3
    (by decide) (by decide)
  have h2 := storage.isSaved_save_remove_spec aliceStore alice90 "alice" 3
    (by decide) (by decide)
  have h3 := storage.isSaved_save_remove_spec aliceStore alice90 "bob" 3
    (by decide) (by decide)
  exact ⟨h1.1 (by decide), h2.2.1, h2.2.2.1, h3.2.2.2 (by decide)⟩

/-! ### C2 -/

/-- C2: with working storage, saving a result whose computed key already has
an entry replaces that entry in place (`List.set` at its existing index, not
a move to the front), stamps `savedAt` with the current time, and leaves the
store's size unchanged; the save reports success. -/
theorem storage.save_existing_spec (s : LocalStore) (r : RatingResult)
    (t : Int) (hr : s.readFails = false) (hw : s.writeFails = false)
    (hmem : ∃ p ∈ storage.getSavedProfiles s,
      storedUsername p = some (saveKey r)) :
    (storage.saveProfile s r t).1 = true ∧
    ∃ i, ∃ hi : i < (storage.getSavedProfiles s).length,
      storedUsername ((storage.getSavedProfiles s).get ⟨i, hi⟩) =
        some (saveKey r) ∧
      storage.getSavedProfiles (storage.saveProfile s r t).2 =
        (storage.getSavedProfiles s).set i { r with savedAt := some t } ∧
      (storage.getSavedProfiles (storage.saveProfile s r t).2).length =
        (storage.getSavedProfiles s).length := by
  have hfst : (storage.saveProfile s r t).1 = true := by
    simp [storage.saveProfile, hw]
  refine ⟨hfst, ?_⟩
  rcases hmem with ⟨p, hp, hup⟩
  cases hfind : (storage.getSavedProfiles s).findIdx?
      (fun q => storedUsername q == some (saveKey r)) with
  | none =>
    exact absurd (List.findIdx?_eq_none_iff.mp hfind p hp) (by simp [hup])
  | some i =>
    obtain ⟨hi, hpi, _⟩ := List.findIdx?_eq_some_iff_getElem.mp hfind
    have hset : storage.getSavedProfiles (storage.saveProfile s r t).2 =
        (storage.getSavedProfiles s).set i { r with savedAt := some t } := by
      rw [storage.getSavedProfiles_saveProfile s r t hr hw, storage.saveList]
      rw [hfind]
    refine ⟨i, hi, ?_, hset, ?_⟩
    · rw [List.get_eq_getElem]
      simpa using hpi
    · rw [hset, List.length_set]

/-- A re-save of alice's record with a new score. -/
def alice95 : RatingResult :=
  { profile := some { username := some "alice", name := some "Alice" },
    tier := "Elite", final_score := 95, savedAt := none }

/-- Witness for C2: re-saving alice over `aliceStore` keeps a single entry,
now holding the new content and the new stamp. -/
theorem storage.save_existing_witness :
    (storage.saveProfile aliceStore alice95 9).1 = true ∧
    storage.getSavedProfiles (storage.saveProfile aliceStore alice95 9).2 =
      [{ alice95 with savedAt := some 9 }] ∧
    (storage.getSavedProfiles (storage.saveProfile aliceStore alice95 9).2).length =
      (storage.getSavedProfiles aliceStore).length := by
  have h := storage.save_existing_spec aliceStore alice95 9 (by decide)
    (by decide) ⟨{ alice90 with savedAt := some 1 }, by decide, by decide⟩
  obtain ⟨hfst, i, hi, _, hset, hlen⟩ := h
  have hi0 : i = 0 := by
    have : (storage.getSavedProfiles aliceStore).length = 1 := by decide
    omega
  subst hi0
  rw [hset] at hlen ⊢
  exact ⟨hfst, by decide, hlen⟩

/-! ### Helper lemmas about the comparators and sorted permutations -/

/-- The ranking comparator accepts `a` before `b` exactly when `b`'s score is
at most `a`'s. -/
theorem rankCmp_le_iff (a b : RatingResult) :
    rankCmp a b ≤ 0 ↔ b.final_score ≤ a.final_score := by
  simp only [rankCmp]
  omega

/-- The ascending score comparator accepts `a` before `b` exactly when `a`'s
score is at most `b`'s. -/
theorem sortCmp_score_asc_le (a b : RatingResult) :
    sortCmp "score" "asc" a b ≤ 0 ↔ a.final_score ≤ b.final_score := by
  have h : sortCmp "score" "asc" a b = a.final_score - b.final_score := rfl
  rw [h]
  omega

/-- The descending score comparator accepts `a` before `b` exactly when `b`'s
score is at most `a`'s. -/
theorem sortCmp_score_desc_le (a b : RatingResult) :
    sortCmp "score" "desc" a b ≤ 0 ↔ b.final_score ≤ a.final_score := by
  have h : sortCmp "score" "desc" a b =
      -(a.final_score - b.final_score) := rfl
  rw [h]
  omega

/-- Two sorted permutations of each other are equal, assuming antisymmetry
of the order only on the elements actually present. -/
theorem eq_of_perm_of_pairwise {α : Type _} {r : α → α → Prop} :
    ∀ {l₁ l₂ : List α}, l₁.Perm l₂ →
      (∀ a ∈ l₁, ∀ b ∈ l₁, r a b → r b a → a = b) →
      l₁.Pairwise r → l₂.Pairwise r → l₁ = l₂
  | [], l₂, hp, _, _, _ => hp.nil_eq
  | a :: t₁, [], hp, _, _, _ => absurd hp.symm (by simp)
  | a :: t₁, b :: t₂, hp, hanti, hs₁, hs₂ => by
    have hab : a = b := by
      by_contra hne
      have ha2 : a ∈ b :: t₂ := hp.mem_iff.mp (List.mem_cons_self a t₁)
      have hb1 : b ∈ a :: t₁ := hp.symm.mem_iff.mp (List.mem_cons_self b t₂)
      have hat2 : a ∈ t₂ := by
        rcases List.mem_cons.mp ha2 with h | h
        · exact absurd h hne
        · exact h
      have hbt1 : b ∈ t₁ := by
        rcases List.mem_cons.mp hb1 with h | h
        · exact absurd h.symm hne
        · exact h
      have hrab : r a b := (List.pairwise_cons.mp hs₁).1 b hbt1
      have hrba : r b a := (List.pairwise_cons.mp hs₂).1 a hat2
      exact hne (hanti a (List.mem_cons_self a t₁) b hb1 hrab hrba)
    subst hab
    have htl : t₁ = t₂ :=
      eq_of_perm_of_pairwise hp.cons_inv
        (fun x hx y hy => hanti x (List.mem_cons_of_mem a hx)
          y (List.mem_cons_of_mem a hy))
        (List.pairwise_cons.mp hs₁).2 (List.pairwise_cons.mp hs₂).2
    rw [htl]

/-! ### C8 -/

/-- C8: for 2 or more results, `rank` returns the results in descending
`final_score` order, is a permutation of the input, and is stable (the
subsequence of entries with any given score is exactly that of the input);
in particular the concrete input with scores 90, 60, 75 ranks as
90, 75, 60. -/
theorem rank_spec (l : List RatingResult) (_htwo : 2 ≤ l.length) :
    List.Pairwise (fun a b => b.final_score ≤ a.final_score) (rank l) ∧
    (rank l).Perm l ∧
    (∀ c : Int, (rank l).filter (fun p => p.final_score == c) =
      l.filter (fun p => p.final_score == c)) ∧
    (rank [alice90, bob60, carol75]).map (fun p => p.final_score) =
      [90, 75, 60] := by
  haveI htot : IsTotal RatingResult (fun a b => rankCmp a b ≤ 0) :=
    ⟨fun a b => by simp only [rankCmp]; omega⟩
  haveI htrans : IsTrans RatingResult (fun a b => rankCmp a b ≤ 0) :=
    ⟨fun a b c => by simp only [rankCmp]; omega⟩
  refine ⟨?_, ?_, ?_, by decide⟩
  · have hs := List.sorted_insertionSort (fun a b => rankCmp a b ≤ 0) l
    exact hs.imp (fun hab => (rankCmp_le_iff _ _).mp hab)
  · exact List.perm_insertionSort _ l
  · intro c
    have hall : ∀ q ∈ l.filter (fun p => p.final_score == c),
        q.final_score = c := by
      intro q hq
      have := (List.mem_filter.mp hq).2
      simpa using this
    have hpair : (l.filter (fun p => p.final_score == c)).Pairwise
        (fun a b => rankCmp a b ≤ 0) := by
      apply List.pairwise_of_forall_mem_list
      intro a ha b hb
      rw [rankCmp_le_iff, hall a ha, hall b hb]
    have hstab := List.sublist_insertionSort hpair
      (List.filter_sublist l)
    have h1 : List.Sublist (l.filter (fun p => p.final_score == c))
        ((rank l).filter (fun p => p.final_score == c)) := by
      have h2 := List.Sublist.filter (fun p => p.final_score == c) hstab
      have h3 : (l.filter (fun p => p.final_score == c)).filter
          (fun p => p.final_score == c) =
          l.filter (fun p => p.final_score == c) :=
        List.filter_eq_self.mpr (fun a ha => (List.mem_filter.mp ha).2)
      rwa [h3] at h2
    have hperm : ((rank l).filter (fun p => p.final_score == c)).Perm
        (l.filter (fun p => p.final_score == c)) :=
      (List.perm_insertionSort _ l).filter _
    exact (h1.eq_of_length hperm.length_eq.symm).symm

/-- Witness for C8 at the three-element input with scores 90, 60, 75. -/
theorem rank_spec_witness :
    List.Pairwise (fun a b => b.final_score ≤ a.final_score)
      (rank [alice90, bob60, carol75]) ∧
    (rank [alice90, bob60, carol75]).Perm [alice90, bob60, carol75] ∧
    (rank [alice90, bob60, carol75]).filter (fun p => p.final_score == 60) =
      [alice90, bob60, carol75].filter (fun p => p.final_score == 60) ∧
    (rank [alice90, bob60, carol75]).map (fun p => p.final_score) =
      [90, 75, 60] := by
  have h := rank_spec [alice90, bob60, carol75] (by decide)
  exact ⟨h.1, h.2.1, h.2.2.1 60, h.2.2.2⟩

/-! ### C7 -/

/-- C7: on an input with pairwise distinct scores, sorting by score
descending yields exactly the reverse of sorting by score ascending. -/
theorem sortProfiles_desc_reverse_spec (l : List RatingResult)
    (hnd : (l.map (fun p => p.final_score)).Nodup) :
    sortProfiles l "score" "desc" = (sortProfiles l "score" "asc").reverse := by
  haveI : IsTotal RatingResult (fun a b => sortCmp "score" "desc" a b ≤ 0) :=
    ⟨fun a b => by
      simp only [sortCmp_score_desc_le]
      omega⟩
  haveI : IsTrans RatingResult (fun a b => sortCmp "score" "desc" a b ≤ 0) :=
    ⟨fun a b c => by
      simp only [sortCmp_score_desc_le]
      omega⟩
  haveI : IsTotal RatingResult (fun a b => sortCmp "score" "asc" a b ≤ 0) :=
    ⟨fun a b => by
      simp only [sortCmp_score_asc_le]
      omega⟩
  haveI : IsTrans RatingResult (fun a b => sortCmp "score" "asc" a b ≤ 0) :=
    ⟨fun a b c => by
      simp only [sortCmp_score_asc_le]
      omega⟩
  have hinj := List.inj_on_of_nodup_map hnd
  have hD : (sortProfiles l "score" "desc").Pairwise
      (fun a b => b.final_score ≤ a.final_score) :=
    (List.sorted_insertionSort
      (fun a b => sortCmp "score" "desc" a b ≤ 0) l).imp
      (fun hab => (sortCmp_score_desc_le _ _).mp hab)
  have hA : (sortProfiles l "score" "asc").Pairwise
      (fun a b => a.final_score ≤ b.final_score) :=
    (List.sorted_insertionSort
      (fun a b => sortCmp "score" "asc" a b ≤ 0) l).imp
      (fun hab => (sortCmp_score_asc_le _ _).mp hab)
  have hArev : (sortProfiles l "score" "asc").reverse.Pairwise
      (fun a b => b.final_score ≤ a.final_score) :=
    List.pairwise_reverse.mpr hA
  have hpermD : (sortProfiles l "score" "desc").Perm l :=
    List.perm_insertionSort _ l
  have hpermA : (sortProfiles l "score" "asc").reverse.Perm l :=
    (List.reverse_perm _).trans (List.perm_insertionSort _ l)
  refine eq_of_perm_of_pairwise (hpermD.trans hpermA.symm) ?_ hD hArev
  intro a ha b hb hab hba
  exact hinj (hpermD.mem_iff.mp ha) (hpermD.mem_iff.mp hb)
    (le_antisymm hba hab)

/-- Witness for C7 at a three-element input with distinct scores. -/
theorem sortProfiles_desc_reverse_witness :
    (([alice90, bob60, carol75].map (fun p => p.final_score)).Nodup) ∧
    sortProfiles [alice90, bob60, carol75] "score" "desc" =
      (sortProfiles [alice90, bob60, carol75] "score" "asc").reverse :=
  ⟨by decide, sortProfiles_desc_reverse_spec [alice90, bob60, carol75]
    (by decide)⟩

/-! ### Capacity lemmas for the save loop -/

/-- A save never grows the list beyond 10 entries. -/
theorem storage.saveList_length_le (l : List RatingResult) (r : RatingResult)
    (t : Int) (h : l.length ≤ 10) :
    (storage.saveList l r t).length ≤ 10 := by
  rw [storage.saveList]
  cases hfind : l.findIdx? (fun p => storedUsername p == some (saveKey r)) with
  | some i =>
    simp only
    rw [List.length_set]
    exact h
  | none =>
    simp only
    split
    next hgt =>
      rw [List.length_dropLast, List.length_cons]
      omega
    next hgt =>
      rw [List.length_cons] at hgt ⊢
      omega

/-- When no stored entry matches the key of the record being saved, the save
is exactly an unshift followed by trimming to the first 10 entries. -/
theorem storage.saveList_not_found (l : List RatingResult) (r : RatingResult)
    (t : Int) (hnf : ∀ p ∈ l, storedUsername p ≠ some (saveKey r))
    (hlen : l.length ≤ 10) :
    storage.saveList l r t = ({ r with savedAt := some t } :: l).take 10 := by
  have hfind : l.findIdx? (fun p => storedUsername p == some (saveKey r)) =
      none := by
    rw [List.findIdx?_eq_none_iff]
    intro p hp
    simpa using hnf p hp
  rw [storage.saveList, hfind]
  simp only
  split
  next hgt =>
    rw [List.dropLast_eq_take]
    congr 1
    rw [List.length_cons] at hgt ⊢
    omega
  next hgt =>
    rw [List.length_cons] at hgt
    exact (List.take_of_length_le (by simp; omega)).symm

/-- Trimming the tail before appending on the left does not change the first
`n` entries of the append. -/
theorem take_append_take {α : Type _} (n : Nat) (xs ys : List α) :
    (xs ++ ys.take n).take n = (xs ++ ys).take n := by
  rw [List.take_append_eq_append_take, List.take_append_eq_append_take,
    List.take_take]
  congr 1
  rw [inf_eq_left.mpr (Nat.sub_le n xs.length)]

/-- Running a sequence of saves with fresh, pairwise distinct, present
usernames over a small enough accumulator keeps, of the stamped records
prepended in save order, exactly the first 10. -/
theorem storage.runSavesList_fresh (entries : List (RatingResult × Int)) :
    ∀ acc : List RatingResult,
      acc.length ≤ 10 →
      (∀ e ∈ entries, (storedUsername e.1).isSome) →
      (entries.map (fun e => storedUsername e.1)).Nodup →
      (∀ e ∈ entries, ∀ p ∈ acc, storedUsername p ≠ storedUsername e.1) →
      storage.runSavesList acc entries =
        ((entries.map (fun e : RatingResult × Int =>
          { e.1 with savedAt := some e.2 })).reverse ++ acc).take 10 := by
  induction entries with
  | nil =>
    intro acc hlen _ _ _
    rw [storage.runSavesList]
    simp only [List.map_nil, List.reverse_nil, List.nil_append]
    exact (List.take_of_length_le hlen).symm
  | cons e rest ih =>
    obtain ⟨r, t⟩ := e
    intro acc hlen hsome hnodup hdisj
    have hrs : (storedUsername r).isSome :=
      hsome (r, t) (List.mem_cons_self _ _)
    obtain ⟨u, hu⟩ := Option.isSome_iff_exists.mp hrs
    have hkey : some (saveKey r) = storedUsername r := by
      simp [saveKey, hu]
    have hfreshacc : ∀ p ∈ acc, storedUsername p ≠ some (saveKey r) := by
      intro p hp
      rw [hkey]
      exact hdisj (r, t) (List.mem_cons_self _ _) p hp
    have hsl : storage.saveList acc r t =
        ({ r with savedAt := some t } :: acc).take 10 :=
      storage.saveList_not_found acc r t hfreshacc hlen
    rw [List.map_cons] at hnodup
    have hnc := List.nodup_cons.mp hnodup
    have hlen' : (({ r with savedAt := some t } :: acc).take 10).length ≤ 10 := by
      rw [List.length_take]
      omega
    have hsome' : ∀ e ∈ rest, (storedUsername e.1).isSome :=
      fun e he => hsome e (List.mem_cons_of_mem _ he)
    have hdisj' : ∀ e ∈ rest,
        ∀ p ∈ ({ r with savedAt := some t } :: acc).take 10,
          storedUsername p ≠ storedUsername e.1 := by
      intro e he p hp
      have hp' : p ∈ { r with savedAt := some t } :: acc :=
        (List.take_sublist _ _).subset hp
      rcases List.mem_cons.mp hp' with hpr | hpa
      · intro heq
        apply hnc.1
        refine List.mem_map.mpr ⟨e, he, ?_⟩
        have h1 : storedUsername p = storedUsername r := by
          rw [hpr, storedUsername_stamp]
        show storedUsername e.1 = storedUsername r
        rw [← heq]
        exact h1
      · exact hdisj e (List.mem_cons_of_mem _ he) p hpa
    simp only [storage.runSavesList]
    rw [hsl, ih _ hlen' hsome' hnc.2 hdisj']
    rw [List.map_cons, List.reverse_cons, List.append_assoc,
      List.singleton_append]
    exact take_append_take 10 _ _

/-- Whatever the saves are, a list that starts within capacity stays within
capacity. -/
theorem storage.runSavesList_length_le (entries : List (RatingResult × Int)) :
    ∀ acc : List RatingResult, acc.length ≤ 10 →
      (storage.runSavesList acc entries).length ≤ 10 := by
  induction entries with
  | nil =>
    intro acc h
    exact h
  | cons e rest ih =>
    obtain ⟨r, t⟩ := e
    intro acc h
    exact ih _ (storage.saveList_length_le acc r t h)

/-- With working storage, running saves at the store level runs them at the
list level. -/
theorem storage.getSavedProfiles_runSaves (entries : List (RatingResult × Int)) :
    ∀ s : LocalStore, s.readFails = false → s.writeFails = false →
      storage.getSavedProfiles (storage.runSaves s entries) =
        storage.runSavesList (storage.getSavedProfiles s) entries := by
  induction entries with
  | nil =>
    intro s _ _
    rfl
  | cons e rest ih =>
    obtain ⟨r, t⟩ := e
    intro s hr hw
    simp only [storage.runSaves, storage.runSavesList]
    rw [ih _ (by simp [storage.saveProfile, hw, hr])
      (by simp [storage.saveProfile, hw]),
      storage.getSavedProfiles_saveProfile s r t hr hw]

/-! ### C1 -/

/-- C1: starting from an empty working store, a sequence of more than 10
saves whose usernames are present and pairwise distinct leaves the store
holding exactly the 10 most recently saved usernames, most-recently-saved
first (the oldest entries having been evicted), and at no prefix of the
sequence does the store exceed 10 entries. -/
theorem storage.save_capacity_spec (entries : List (RatingResult × Int))
    (s : LocalStore) (h0 : storage.getSavedProfiles s = [])
    (hr : s.readFails = false) (hw : s.writeFails = false)
    (hsome : ∀ e ∈ entries, (storedUsername e.1).isSome)
    (hnodup : (entries.map (fun e => storedUsername e.1)).Nodup)
    (hlen : 10 < entries.length) :
    (storage.getSavedProfiles (storage.runSaves s entries)).map
        storedUsername =
      ((entries.map (fun e => storedUsername e.1)).reverse).take 10 ∧
    (storage.getSavedProfiles (storage.runSaves s entries)).length = 10 ∧
    ∀ k, (storage.getSavedProfiles
      (storage.runSaves s (entries.take k))).length ≤ 10 := by
  have hrun : storage.getSavedProfiles (storage.runSaves s entries) =
      storage.runSavesList [] entries := by
    rw [storage.getSavedProfiles_runSaves entries s hr hw, h0]
  have hfresh := storage.runSavesList_fresh entries [] (by simp) hsome hnodup
    (by simp)
  rw [List.append_nil] at hfresh
  refine ⟨?_, ?_, ?_⟩
  · rw [hrun, hfresh, List.map_take, List.map_reverse, List.map_map]
    rfl
  · rw [hrun, hfresh, List.length_take, List.length_reverse, List.length_map]
    omega
  · intro k
    rw [storage.getSavedProfiles_runSaves _ s hr hw, h0]
    exact storage.runSavesList_length_le _ [] (by simp)

/-- A minimal rating result for a given username and score. -/
def mkUser (u : String) (sc : Int) : RatingResult :=
  { profile := some { username := some u, name := none },
    tier := "Beginner", final_score := sc, savedAt := none }

/-- Eleven saves with pairwise distinct usernames. -/
def elevenEntries : List (RatingResult × Int) :=
  [(mkUser "a" 1, 1), (mkUser "b" 2, 2), (mkUser "c" 3, 3),
   (mkUser "d" 4, 4), (mkUser "e" 5, 5), (mkUser "f" 6, 6),
   (mkUser "g" 7, 7), (mkUser "h" 8, 8), (mkUser "i" 9, 9),
   (mkUser "j" 10, 10), (mkUser "k" 11, 11)]

/-- Witness for C1: after the eleven distinct saves the store holds the 10
most recent usernames, newest first, and prefixes never exceed capacity. -/
theorem storage.save_capacity_witness :
    (storage.getSavedProfiles
        (storage.runSaves emptyStore elevenEntries)).map storedUsername =
      ((elevenEntries.map (fun e => storedUsername e.1)).reverse).take 10 ∧
    (storage.getSavedProfiles
      (storage.runSaves emptyStore elevenEntries)).length = 10 ∧
    (storage.getSavedProfiles
      (storage.runSaves emptyStore (elevenEntries.take 5))).length ≤ 10 := by
  have h := storage.save_capacity_spec elevenEntries emptyStore (by decide)
    (by decide) (by decide) (by decide) (by decide) (by decide)
  exact ⟨h.1, h.2.1, h.2.2 5⟩
